import Mathlib

/-!
# Verification of the h5_Cruncher data-access and export layer

Shallow embedding, in Lean 4, of the algorithmic core of the h5_Cruncher
repository: schema inference (`H5FileHandler.get_dataset_info`,
`H5FileHandler.get_dataframe_columns`), display sampling
(`H5FileHandler.get_dataset_data`), the chunked CSV exporters
(`DataFrameExporter.export_to_csv`, `ExportWindow._export_large_csv`),
row-selection parsing (`ExportWindow._parse_row_selection`) and the
chunked value-match scan
(`SpecificInstanceExportWindow._update_preview`).

Python/h5py/pandas readers that can raise are embedded as `Except`-valued
inputs; machine arithmetic on row counts is embedded as `Nat` (the Python
integers involved are unbounded); datasets are embedded as Lean lists
(axis 0 = list order).
-/

namespace H5Cruncher

/-! ## Schema inference for leaf datasets

`H5FileHandler.get_dataset_info`, leaf (`h5py.Dataset`) branch
(src/core/h5_file_handler.py, lines 95-112).  A leaf header carries the
shape tuple and the structured-dtype field names (`obj.dtype.fields`),
`none` for a plain (non-record) element type.  The field-name list is in
field-declaration order, matching `list(obj.dtype.fields.keys())`.
-/

structure LeafHeader where
  shape : List Nat
  dtypeFields : Option (List String)
deriving Repr, DecidableEq

structure DatasetInfo where
  shape : List Nat
  ndim : Nat
  size : Nat
  columns : List String
deriving Repr, DecidableEq

/-- Leaf branch of `get_dataset_info`: `ndim` and `size` come from the
header; `columns` is `['Column_0', ...]` for a plain 2-D array,
`list(obj.dtype.fields.keys())` for a structured array, and the initial
`[]` otherwise (lines 86 and 108-112 of src/core/h5_file_handler.py). -/
def get_dataset_info_leaf (h : LeafHeader) : DatasetInfo :=
  let ndim := h.shape.length
  { shape := h.shape
    ndim := ndim
    size := h.shape.foldl (· * ·) 1
    columns :=
      if ndim = 2 ∧ h.dtypeFields = none then
        (List.range (h.shape.getD 1 0)).map (fun i => "Column_" ++ toString i)
      else
        match h.dtypeFields with
        | some fs => fs
        | none => [] }

/-! ## Display sampling (`H5FileHandler.get_dataset_data`)

2-D branch (src/core/h5_file_handler.py, lines 301-312).  A 2-D dataset
is a list of rows, each of width `ncols`; `obj.size = nrows * ncols`;
`obj[:k, :]` is `rows.take k`.  The source computes the row count as
`max_elements // obj.shape[1] if obj.shape[1] > 0 else 1`. -/

def get_dataset_data_2d {α : Type} (rows : List (List α)) (ncols maxElements : Nat) :
    List (List α) × Bool :=
  let nrows := rows.length
  if nrows * ncols > maxElements then
    if nrows * ncols > maxElements then
      (rows.take (if 0 < ncols then maxElements / ncols else 1), true)
    else
      (rows, false)
  else
    (rows, false)

/-! ## Column inference for group nodes (`H5FileHandler.get_dataframe_columns`)

src/core/h5_file_handler.py, lines 161-234.  Strings are embedded as
`List Char` (Python strings after decoding), so that every definition
evaluates inside the kernel.  Readers that can raise are embedded as
`Except`-valued fields: `H5Child.labels` is the result of reading and
decoding one child dataset (the per-child `try` blocks at lines 184-203
and 209-223 catch a failure and fall through), and the argument of
`get_dataframe_columns` is the result of opening the file (the outer
`try` at lines 175-233 catches everything else and returns `[]`). -/

abbrev Str := List Char

/-- Python string `<=`: lexicographic by code point. -/
def lexLe : Str → Str → Bool
  | [], _ => true
  | _ :: _, [] => false
  | x :: xs, y :: ys => if x < y then true else if y < x then false else lexLe xs ys

/-- One child node of an HDF5 group: its key, whether it is an
`h5py.Dataset`, and the decoded string labels its data holds (or the
error raised while reading or decoding them). -/
structure H5Child where
  name : Str
  isDataset : Bool
  labels : Except Str (List Str)
deriving Repr

/-- An HDF5 group node: its child nodes, in storage order. -/
structure H5GroupData where
  children : List H5Child
deriving Repr

/-- Python `sorted(group.keys())` (line 207): children sorted by key. -/
def sortChildren (cs : List H5Child) : List H5Child :=
  List.insertionSort (fun a b => lexLe a.name b.name = true) cs

/-- The test `key.startswith('block') and key.endswith('_items')` (line 208). -/
def blockItemsName (n : Str) : Bool :=
  "block".toList.isPrefixOf n && "_items".toList.isSuffixOf n

/-- Body of the `block*_items` accumulation loop (lines 207-223): a
matching child dataset appends its decoded labels to the accumulator; a
failed read (inner `except`, line 222) leaves it unchanged. -/
def blockItemsStep (acc : List Str) (c : H5Child) : List Str :=
  if blockItemsName c.name && c.isDataset then
    match c.labels with
    | .ok ls => acc ++ ls
    | .error _ => acc
  else acc

/-- Body of `get_dataframe_columns` once the file is open and the path
is known to be a group (lines 180-230).  Strategy 3 of the source (lines
228-230, `group.dtype.fields`) is guarded by
`isinstance(group, h5py.Dataset)`, which is `False` on this code path —
`group` was checked to be an `h5py.Group` at line 177 — so it can never
produce columns and has no counterpart here. -/
def get_dataframe_columns_inner (g : H5GroupData) : List Str :=
  let axis0Cols : List Str :=
    match g.children.find? (fun c => c.name == "axis0".toList) with
    | some c =>
        if c.isDataset then
          match c.labels with
          | .ok ls => ls
          | .error _ => []
        else []
    | none => []
  if !axis0Cols.isEmpty then axis0Cols
  else
    let blockCols := (sortChildren g.children).foldl blockItemsStep []
    if !blockCols.isEmpty then blockCols
    else []

/-- Embedding of `H5FileHandler.get_dataframe_columns`.  `.error` is a failure to
open the file (outer `except`, lines 232-234: print and return `[]`);
`.ok none` is "path missing or not a group" (lines 177-178). -/
def get_dataframe_columns : Except Str (Option H5GroupData) → List Str
  | .error _ => []
  | .ok none => []
  | .ok (some g) => get_dataframe_columns_inner g

/-! Spec-style strategy chain, for comparison with the monolithic
translation above. -/

/-- The labels one read contributes: none on failure. -/
def labelsOrNothing : Except Str (List Str) → List Str
  | .ok ls => ls
  | .error _ => []

/-- Strategy 1 of the spec: decoded labels of a child dataset named
`axis0`, when that yields a non-empty list. -/
def axis0Labels (g : H5GroupData) : Option (List Str) :=
  match g.children.find? (fun c => c.name == "axis0".toList) with
  | some c =>
      if c.isDataset then
        match c.labels with
        | .ok ls => if ls.isEmpty then none else some ls
        | .error _ => none
      else none
  | none => none

/-- A non-empty list of columns, or nothing. -/
def nonEmptyOpt (cols : List Str) : Option (List Str) :=
  if cols.isEmpty then none else some cols

/-- Strategy 2 as the code implements it: concatenated labels of the
child datasets named `block*_items`, taken in ascending lexicographic
order of the child key, when non-empty. -/
def blockItemLabels (g : H5GroupData) : Option (List Str) :=
  nonEmptyOpt (((sortChildren g.children).filter
      (fun c => blockItemsName c.name && c.isDataset)).flatMap
    (fun c => labelsOrNothing c.labels))

/-- Decimal digits to a number, `none` on empty or non-digit input. -/
def digitsToNat? (cs : Str) : Option Nat :=
  if cs ≠ [] ∧ cs.all Char.isDigit then
    some (cs.foldl (fun a c => 10 * a + (c.toNat - 48)) 0)
  else none

/-- The `<N>` of a child key of the form `block<N>_items`. -/
def parseBlockN (n : Str) : Option Nat :=
  if blockItemsName n then digitsToNat? ((n.drop 5).take (n.length - 11))
  else none

/-- Modelled from the claim's words (not from the source): column
inference whose second strategy takes the `block<N>_items` children in
ascending numeric order of `<N>`. -/
def get_dataframe_columns_claimed (g : H5GroupData) : List Str :=
  match axis0Labels g with
  | some ls => ls
  | none =>
    let blockChildren := g.children.filter
      (fun c => (parseBlockN c.name).isSome && c.isDataset)
    let sortedB := List.insertionSort
      (fun a b => (parseBlockN a.name).getD 0 ≤ (parseBlockN b.name).getD 0) blockChildren
    let cols := sortedB.flatMap (fun c => labelsOrNothing c.labels)
    if cols.isEmpty then [] else cols

/-! ### C5 -/

/-- A group with two block-items children, numbered 10 and 2. -/
def g₅ : H5GroupData :=
  ⟨[⟨"block10_items".toList, true, .ok ["a".toList]⟩,
    ⟨"block2_items".toList, true, .ok ["b".toList]⟩]⟩

/-! ## Row-selection parsing (`ExportWindow._parse_row_selection`)

src/ui/export_window.py, lines 493-518, and the gate in `_export_csv`,
lines 565-568.  `_parse_row_selection` performs no file access; on the
first malformed token it displays an "Input Error" message box and
returns `[]`, and `_export_csv` returns before the save-file dialog when
it receives `[]`, so nothing is ever written for a rejected selection
string. -/

/-- Python `str.split(sep)` for a one-character separator. -/
def splitOnChar (sep : Char) : Str → List Str
  | [] => [[]]
  | c :: cs =>
    match splitOnChar sep cs with
    | [] => [[c]]
    | h :: t => if c == sep then [] :: h :: t else (c :: h) :: t

/-- Python `str.strip()`. -/
def trimC (s : Str) : Str :=
  ((s.dropWhile Char.isWhitespace).reverse.dropWhile Char.isWhitespace).reverse

/-- Python `int(s)` restricted to the non-negative values possible here
(tokens never contain `'-'` on the paths that call this): surrounding
whitespace, an optional `'+'`, then decimal digits. -/
def pyNat? (s : Str) : Option Nat :=
  let t := trimC s
  let t := if t.head? = some '+' then t.drop 1 else t
  digitsToNat? t

/-- One loop iteration of `_parse_row_selection` (lines 499-517): the
indices a token contributes, or `none` if it is malformed (bad integer,
range with more or fewer than two parts, or `start > end`). -/
def parseToken (part : Str) : Option (List Nat) :=
  let part := trimC part
  if part.contains '-' then
    match splitOnChar '-' part with
    | [startStr, endStr] =>
      match pyNat? startStr, pyNat? endStr with
      | some s, some e => if s > e then none else some (List.range' s (e - s + 1))
      | _, _ => none
    | _ => none
  else
    match pyNat? part with
    | some n => some [n]
    | none => none

/-- The token loop: stops at the first malformed token. -/
def parseParts : List Str → Option (List Nat)
  | [] => some []
  | p :: ps =>
    match parseToken p with
    | none => none
    | some idxs =>
      match parseParts ps with
      | none => none
      | some rest => some (idxs ++ rest)

/-- Python `sorted(list(set(rows)))` (line 518). -/
def sortedDedup (l : List Nat) : List Nat :=
  List.insertionSort (· ≤ ·) l.dedup

/-- Result of `_parse_row_selection` as Python produces it:
`result = none` is Python `None` ("all rows"), `some []` is the
error return, and `errorShown` records that an "Input Error" message box
was displayed. -/
structure ParseOutcome where
  result : Option (List Nat)
  errorShown : Bool
deriving Repr, DecidableEq

/-- Embedding of `ExportWindow._parse_row_selection` (lines 493-518). -/
def parse_row_selection (s : Str) : ParseOutcome :=
  if s.isEmpty || s == "Leave blank for all rows".toList then ⟨none, false⟩
  else
    match parseParts (splitOnChar ',' s) with
    | none => ⟨some [], true⟩
    | some l => ⟨some (sortedDedup l), false⟩

/-- The gate in `_export_csv` (lines 565-568): with `rows_to_export == []`
the method returns before the confirmation dialog, the save-file dialog
and the export thread, so no output file is opened and zero bytes are
written. -/
def export_csv_proceeds (s : Str) : Bool :=
  match (parse_row_selection s).result with
  | some [] => false
  | _ => true

/-! ## Value matching (`SpecificInstanceExportWindow._update_preview`)

src/ui/specific_instance_export_window.py, lines 562-573.  An integer
column is embedded as `List Int`; `str(value)` is `intToStr`;
`pd.to_numeric(text)` is `pyInt?` (sign and decimal digits — the real
parser also accepts float syntax, but a float-only-parseable text is
never the string form of an integer either, so the zero-match property
is unaffected). -/

/-- Decimal digits of `n`, most significant first (`str` of a
non-negative integer). -/
def natToDigits (n : Nat) : Str :=
  if _h : n < 10 then [Nat.digitChar n]
  else natToDigits (n / 10) ++ [Nat.digitChar (n % 10)]
  termination_by n
  decreasing_by exact Nat.div_lt_self (by omega) (by omega)

/-- Python `str(x)` for an integer `x`. -/
def intToStr (x : Int) : Str :=
  if x < 0 then '-' :: natToDigits x.natAbs else natToDigits x.toNat

/-- Model of `pd.to_numeric(s)` restricted to integer syntax: surrounding
whitespace, optional sign, decimal digits. -/
def pyInt? (s : Str) : Option Int :=
  let t := trimC s
  if t.head? = some '-' then
    match digitsToNat? (t.drop 1) with
    | some n => some (-(n : Int))
    | none => none
  else if t.head? = some '+' then
    match digitsToNat? (t.drop 1) with
    | some n => some ((n : Int))
    | none => none
  else
    match digitsToNat? t with
    | some n => some ((n : Int))
    | none => none

/-- The per-row match mask of `_update_preview` for a numeric column
(lines 563-570): parse the search text as a number and compare
numerically; if parsing raises, compare `astype(str)` against the
literal text instead. -/
def value_match_mask (col : List Int) (target : Str) : List Bool :=
  match pyInt? target with
  | some v => col.map (fun x => x == v)
  | none => col.map (fun x => intToStr x == target)

/-! ## The chunked value-match scan loop

`SpecificInstanceExportWindow._update_preview`, lines 525-627.  Each
chunk read (lines 539-548 together with the mask and filter, lines
550-596) is embedded as one `Except`-valued input: `.ok rows` when the
chunk was read as a `DataFrame` holding the selected column and
filtering succeeded, `.error` when anything in the per-chunk `try`
raised (or the chunk was skipped by the non-DataFrame / missing-column
`continue`s).  The `except` at lines 598-600 turns a raise into
`continue`, so an erroring chunk contributes no matches and the loop
moves on. -/

/-- Outcome the scan reports after the loop (lines 611-627): there is no
error alternative, because per-chunk errors never leave the loop. -/
inductive ScanStatus where
  | noMatches
  | matchesFound
deriving Repr, DecidableEq

/-- The chunk loop: concatenate the matches of the chunks that
succeeded, in ascending chunk order, skipping chunks that raised. -/
def scanChunks {ρ : Type} (reads : List (Except Str (List ρ))) (p : ρ → Bool) : List ρ :=
  match reads with
  | [] => []
  | r :: rs =>
    (match r with
     | .ok rows => rows.filter p
     | .error _ => []) ++ scanChunks rs p

/-- The final result of `_update_preview`: the accumulated matches and the
status shown to the user. -/
def update_preview_result {ρ : Type} (reads : List (Except Str (List ρ))) (p : ρ → Bool) :
    List ρ × ScanStatus :=
  let m := scanChunks reads p
  (m, if m.isEmpty then .noMatches else .matchesFound)

/-! ## Chunked CSV writing with cancellation (`ExportWindow._export_large_csv`)

src/ui/export_window.py, lines 721-748, together with the status
handling of `_export_worker` (lines 650-719) and `_cancel_export`
(lines 645-648). -/

/-- The chunk plan of a loop `for i in range(0, len(l), k)` taking
`l[i : i+k]` each iteration (lines 731-736; also
src/core/dataframe_exporter.py lines 62-63).  `range(0, n, k)` steps
`⌈n/k⌉` times; Python raises on `k = 0`, embedded as an empty plan. -/
def chunkBy {β : Type} (k : Nat) (l : List β) : List (List β) :=
  (List.range ((l.length + k - 1) / k)).map (fun j => (l.drop (j * k)).take k)

/-- Job status as the UI reports it: `_export_success` (complete),
`_export_error` (failed), or neither because the cancellation flag was
observed — the cancel handler has already shown its own distinct
"Cancelling export..." status (line 648). -/
inductive ExportStatus where
  | complete
  | cancelled
  | failed
deriving Repr, DecidableEq

/-- The caller-visible cancellation flag `self.cancel_export`, set by
the Cancel button after `k` chunks have completed: a poll with `written`
chunks done observes `true` iff `k ≤ written`. -/
def cancelFlag (cancelAfter : Option Nat) (written : Nat) : Bool :=
  match cancelAfter with
  | some k => decide (k ≤ written)
  | none => false

/-- The writing loop of `_export_large_csv` (lines 731-745): the flag is
polled at the top of each iteration — between chunks, never mid-chunk —
and on observing it the loop returns at once; otherwise the whole chunk
is appended to the file.  Returns the chunks written and whether the
flag was observed (the loop's poll, or the check after the loop at line
747). -/
def writeChunksLoop {β : Type} (chunks : List (List β)) (written : Nat)
    (cancelAfter : Option Nat) : List (List β) × Bool :=
  match chunks with
  | [] => ([], cancelFlag cancelAfter written)
  | c :: cs =>
    if cancelFlag cancelAfter written then ([], true)
    else
      let r := writeChunksLoop cs (written + 1) cancelAfter
      (c :: r.1, r.2)

/-- Embedding of `_export_large_csv` over a pre-chunked dataframe, plus the outcome
`_export_worker` reports: the header plus the returned chunks are the
file's contents (opened once at line 726, header at line 728, never
deleted); if the flag was never observed the 100% report and
`_export_success` run (`.complete`), otherwise both are skipped and the
job ends in the distinct cancelled state (`.failed` arises only from a
raise inside the worker's `try`, which this loop does not contain). -/
def export_large_csv {β : Type} (data : List β) (chunkSize : Nat)
    (cancelAfter : Option Nat) : List (List β) × ExportStatus :=
  let chunks := chunkBy chunkSize data
  let r := writeChunksLoop chunks 0 cancelAfter
  (r.1, if r.2 then .cancelled else .complete)

/-! ## Progress reporting of `DataFrameExporter.export_to_csv`

src/core/dataframe_exporter.py, lines 11-101.  The trace of percentages
handed to `update_progress` (exact rationals in place of Python floats):
5 (line 21), 10 (line 26), 15 (line 44), 20 (line 46), 25 (line 65),
`25 + (chunk_idx / len(chunks)) * 70` per chunk (line 68), 95 (line 85)
and 100 (line 88).  Branch parameters: `columnsValid = false` is the
`raise ValueError("No valid columns for export")` at line 56, caught at
line 97 so the callback receives 0 (line 100) and the job fails;
`cancelAtChunk = some i` (`i < nChunks`) is an `InterruptedError` raised
from the progress callback of chunk `i`, whose handler reports 0 and
re-raises (lines 92-96); `outputOk = false` is the post-hoc empty-file
check failing (lines 87-90), again reported as 0 via line 100. -/

/-- The per-chunk percentages of the first `i` of `n` chunks (line 68). -/
def chunkPcts (n i : Nat) : List ℚ :=
  (List.range i).map (fun (j : Nat) => 25 + ((j : ℚ) / (n : ℚ)) * 70)

/-- Trace and outcome from the chunk loop onwards when no cancellation
interrupts it: 95, then 100 and success, or 0 and failure from the
empty-output check. -/
def export_finish (nChunks : Nat) (outputOk : Bool) : List ℚ × ExportStatus :=
  ([5, 10, 15, 20, 25] ++ chunkPcts nChunks nChunks
      ++ (if outputOk then [95, 100] else [95, 0]),
   if outputOk then .complete else .failed)

/-- The full percentage trace and outcome of one `export_to_csv` run. -/
def export_to_csv_trace (nChunks : Nat) (columnsValid : Bool)
    (cancelAtChunk : Option Nat) (outputOk : Bool) : List ℚ × ExportStatus :=
  if !columnsValid then ([5, 10, 15, 20, 0], .failed)
  else
    match cancelAtChunk with
    | some i =>
      if i < nChunks then
        ([5, 10, 15, 20, 25] ++ chunkPcts nChunks i ++ [0], .cancelled)
      else export_finish nChunks outputOk
    | none => export_finish nChunks outputOk

/-! ## Explicit-row chunked export (`DataFrameExporter.export_to_csv`)

src/core/dataframe_exporter.py, lines 29-79, explicit-rows path
(`rows` a non-empty list): `row_indices = sorted(rows)` (line 30),
chunks are `row_indices[i:i+chunk_size]` (lines 62-63), and each chunk
is served by one covering slice read
`read_dataset(..., slice_rows=(min(chunk), max(chunk)+1))` followed by
`df.iloc[[i - start for i in chunk]]` (lines 74-77).  A dataset is a
list of rows; `obj[s:e]` (numpy/pandas, clamped at both ends) is
`sliceRows`. -/

/-- The slice `obj[s:e]`. -/
def sliceRows {ρ : Type} (data : List ρ) (s e : Nat) : List ρ :=
  (data.take e).drop s

/-- Python `min(chunk)` (line 74).  Python's `min` folds over the whole list;
the `headD 0` seed only matters for the empty list, on which Python
raises. -/
def chunkStart (c : List Nat) : Nat := c.foldl Nat.min (c.headD 0)

/-- Python `max(chunk)` (line 74). -/
def chunkStop (c : List Nat) : Nat := c.foldl Nat.max (c.headD 0)

/-- One chunk of the explicit-rows path (lines 74-77): read the covering
slice `[min(chunk), max(chunk)+1)`, then keep positions `i - start`.
`iloc` raises on an out-of-range position; in this embedding
`filterMap` drops it, and the two agree because every position is in
range (each `i ∈ c` satisfies `start ≤ i ≤ stop`). -/
def exportExplicitChunk {ρ : Type} (data : List ρ) (c : List Nat) : List ρ :=
  let start := chunkStart c
  let stop := chunkStop c
  let df := sliceRows data start (stop + 1)
  c.filterMap (fun i => df[i - start]?)

/-- The explicit-rows export: rows sorted (line 30; the source does not
deduplicate here — the row-selection parser already did), chunked by
`chunk_size`, each chunk read and filtered, and the pieces concatenated
into the output file. -/
def export_to_csv_rows {ρ : Type} (data : List ρ) (rows : List Nat) (chunkSize : Nat) :
    List ρ :=
  (chunkBy chunkSize (List.insertionSort (· ≤ ·) rows)).flatMap (exportExplicitChunk data)

/-- The flag `is_continuous_slice` (line 32): more than one index and each
successor is the predecessor plus one. -/
def is_continuous_slice (l : List Nat) : Bool :=
  decide (1 < l.length) &&
    (List.range (l.length - 1)).all (fun i => l.getD i 0 + 1 == l.getD (i + 1) 0)

/-- Modelled from the claim's words (not from the source): the naive
approach — read the whole dataset, then keep the rows whose index is in
the list, in dataset order. -/
def naiveFilterRows {ρ : Type} (data : List ρ) (rows : List Nat) : List ρ :=
  ((List.range data.length).filter (fun i => decide (i ∈ rows))).filterMap
    (fun i => data[i]?)

/-! ### C4 -/

/-- C4 counterexample.  A plain (non-structured) 2-D leaf of shape
(2, 3): the claim says a non-structured element type yields no columns,
but `get_dataset_info` generates `Column_i` names for plain 2-D arrays. -/
theorem C4_leaf_columns_counterexample :
    (get_dataset_info_leaf ⟨[2, 3], none⟩).columns = ["Column_0", "Column_1", "Column_2"] ∧
    (get_dataset_info_leaf ⟨[2, 3], none⟩).columns ≠ [] := by
  constructor
  · rfl
  · decide

/-- C4 (amended): for a leaf array node, `get_dataset_info` returns the
record's field names in declaration order when the element type is
structured; when it is not structured it returns no columns unless the
array is 2-D, in which case it returns generated names `Column_0`, ...,
`Column_(shape[1]-1)`. -/
theorem C4_leaf_columns (h : LeafHeader) :
    (∀ fs, h.dtypeFields = some fs → (get_dataset_info_leaf h).columns = fs) ∧
    (h.dtypeFields = none → h.shape.length ≠ 2 → (get_dataset_info_leaf h).columns = []) ∧
    (h.dtypeFields = none → h.shape.length = 2 →
      (get_dataset_info_leaf h).columns =
        (List.range (h.shape.getD 1 0)).map (fun i => "Column_" ++ toString i)) := by
  refine ⟨fun fs hfs => ?_, fun hf hn => ?_, fun hf hn => ?_⟩
  · simp only [get_dataset_info_leaf, hfs]
    split
    · rename_i hc
      exact absurd hc.2 (by simp [hfs])
    · rfl
  · simp [get_dataset_info_leaf, hf, hn]
  · simp [get_dataset_info_leaf, hf, hn]

/-- C4 witness: the amended theorem evaluated on a structured leaf of
shape (4,) with fields a, b and on a plain 1-D leaf. -/
theorem C4_leaf_columns_witness :
    (get_dataset_info_leaf ⟨[4], some ["a", "b"]⟩).columns = ["a", "b"] ∧
    (get_dataset_info_leaf ⟨[4], none⟩).columns = [] :=
  ⟨(C4_leaf_columns ⟨[4], some ["a", "b"]⟩).1 ["a", "b"] rfl,
   (C4_leaf_columns ⟨[4], none⟩).2.1 rfl (by decide)⟩

/-! ### C6 -/

/-- C6 counterexample.  A 2 × 5 array sampled with the positive element
budget 3 (smaller than one row): the claim says the result is never
empty, but the source returns `obj[:3//5, :] = obj[:0, :]`, the empty
sample. -/
theorem C6_sample_counterexample :
    0 < 3 ∧ 3 < 5 ∧
    get_dataset_data_2d [[0, 1, 2, 3, 4], [5, 6, 7, 8, 9]] 5 3 = (([] : List (List Nat)), true) := by
  refine ⟨by decide, by decide, ?_⟩
  decide

/-- C6 (amended): for a 2-D leaf with at least one column, whenever the
array exceeds the element budget the sample keeps exactly
`max_elements / ncols` whole rows (capped by the row count) and is
flagged truncated — in particular the sample is empty whenever
`max_elements < ncols`, with no one-row or one-column fallback; an array
within the budget is returned whole and unflagged. -/
theorem C6_sample_rows {α : Type} (rows : List (List α)) (ncols maxElements : Nat)
    (hc : 0 < ncols) :
    (rows.length * ncols > maxElements →
      (get_dataset_data_2d rows ncols maxElements).1.length =
        min (maxElements / ncols) rows.length ∧
      (get_dataset_data_2d rows ncols maxElements).2 = true ∧
      (maxElements < ncols → (get_dataset_data_2d rows ncols maxElements).1 = [])) ∧
    (rows.length * ncols ≤ maxElements →
      get_dataset_data_2d rows ncols maxElements = (rows, false)) := by
  constructor
  · intro hgt
    have hdef : get_dataset_data_2d rows ncols maxElements =
        (rows.take (maxElements / ncols), true) := by
      simp [get_dataset_data_2d, hgt, hc]
    refine ⟨by simp [hdef, List.length_take], by simp [hdef], fun hlt => ?_⟩
    have h0 : maxElements / ncols = 0 := Nat.div_eq_of_lt hlt
    simp [hdef, h0]
  · intro hle
    simp [get_dataset_data_2d, Nat.not_lt.mpr hle]

/-- C6 witness: the amended theorem evaluated on a 3 × 2 array with
budget 4 (two rows fit) and on the within-budget case. -/
theorem C6_sample_rows_witness :
    (get_dataset_data_2d [[0, 1], [2, 3], [4, 5]] 2 4).1.length = min (4 / 2) 3 ∧
    get_dataset_data_2d [[0, 1], [2, 3], [4, 5]] 2 6 = ([[0, 1], [2, 3], [4, 5]], false) :=
  ⟨by
    have h := ((C6_sample_rows [[0, 1], [2, 3], [4, 5]] 2 4 (by decide)).1 (by decide)).1
    simpa using h,
   (C6_sample_rows [[0, 1], [2, 3], [4, 5]] 2 6 (by decide)).2 (by decide)⟩

theorem blockItemsStep_eq (acc : List Str) (c : H5Child) :
    blockItemsStep acc c =
      if blockItemsName c.name && c.isDataset then acc ++ labelsOrNothing c.labels
      else acc := by
  cases hl : c.labels <;> simp [blockItemsStep, labelsOrNothing, hl]

theorem foldl_blockItemsStep (l : List H5Child) (init : List Str) :
    l.foldl blockItemsStep init
      = init ++ (l.filter (fun c => blockItemsName c.name && c.isDataset)).flatMap
          (fun c => labelsOrNothing c.labels) := by
  induction l generalizing init with
  | nil => simp
  | cons x xs ih =>
    simp only [List.foldl_cons, blockItemsStep_eq, List.filter_cons]
    cases hp : (blockItemsName x.name && x.isDataset) <;> simp [ih, List.append_assoc]

theorem getD_nonEmptyOpt (cols : List Str) : (nonEmptyOpt cols).getD [] = cols := by
  by_cases hc : cols = [] <;> simp [nonEmptyOpt, hc]

/-- C5 counterexample.  On a group holding `block10_items` (labels
`["a"]`) and `block2_items` (labels `["b"]`), the source concatenates in
lexicographic key order — `block10_items` before `block2_items`, giving
`["a", "b"]` — while the claimed ascending numeric order of `<N>` gives
`["b", "a"]`. -/
theorem C5_block_order_counterexample :
    get_dataframe_columns (.ok (some g₅)) = ["a".toList, "b".toList] ∧
    get_dataframe_columns_claimed g₅ = ["b".toList, "a".toList] ∧
    get_dataframe_columns (.ok (some g₅)) ≠ get_dataframe_columns_claimed g₅ := by
  refine ⟨by decide, by decide, by decide⟩

/-- C5 (amended): for every group node, column inference tries, in
order, stopping at the first non-empty result: (1) the decoded labels of
a child dataset named `axis0`; (2) the concatenated decoded labels of
the child datasets named `block*_items`, taken in ascending
*lexicographic* order of the child key (which agrees with numeric order
of `<N>` only while the numbers have equally many digits); the source's
third strategy (structured-dtype field names) is unreachable for a group
node; if no strategy yields columns the result is the empty list. -/
theorem C5_block_order (g : H5GroupData) :
    get_dataframe_columns (.ok (some g)) =
      match axis0Labels g with
      | some ls => ls
      | none =>
        match blockItemLabels g with
        | some ls => ls
        | none => [] := by
  show get_dataframe_columns_inner g = _
  simp only [get_dataframe_columns_inner, axis0Labels, blockItemLabels,
    foldl_blockItemsStep, List.nil_append]
  set cols := ((sortChildren g.children).filter
      (fun c => blockItemsName c.name && c.isDataset)).flatMap
    (fun c => labelsOrNothing c.labels) with hcols
  cases hax : g.children.find? (fun c => c.name == "axis0".toList) with
  | none =>
    by_cases hc : cols = [] <;> simp [nonEmptyOpt, hc]
  | some c =>
    cases hd : c.isDataset
    · by_cases hc : cols = [] <;> simp [nonEmptyOpt, hd, hc]
    · cases hl : c.labels with
      | error e => by_cases hc : cols = [] <;> simp [nonEmptyOpt, hd, hl, hc]
      | ok ls =>
        by_cases hls : ls = []
        · by_cases hc : cols = [] <;> simp [nonEmptyOpt, hd, hl, hls, hc]
        · simp [nonEmptyOpt, hd, hl, hls]

/-! ### C9 -/

/-- C9: read errors during column inference never propagate — in this
embedding `get_dataframe_columns` is a total function into plain column
lists — and they degrade the result to "no columns identified": a
failure to open the file, a missing or non-group path, and a group all
of whose child reads fail each produce the empty column list. -/
theorem C9_inference_error_degrades :
    (∀ e, get_dataframe_columns (.error e) = []) ∧
    get_dataframe_columns (.ok none) = [] ∧
    (∀ g : H5GroupData, (∀ c ∈ g.children, ∃ e, c.labels = .error e) →
      get_dataframe_columns (.ok (some g)) = []) := by
  refine ⟨fun e => rfl, rfl, fun g hg => ?_⟩
  have hmem : ∀ c ∈ sortChildren g.children, ∃ e, c.labels = .error e := by
    intro c hc
    exact hg c (((List.perm_insertionSort _ g.children).mem_iff).mp hc)
  have hblock : ((sortChildren g.children).filter
      (fun c => blockItemsName c.name && c.isDataset)).flatMap
      (fun c => labelsOrNothing c.labels) = [] := by
    rw [List.flatMap_eq_nil_iff]
    intro c hc
    obtain ⟨e, he⟩ := hmem c (List.mem_of_mem_filter hc)
    simp [labelsOrNothing, he]
  show get_dataframe_columns_inner g = []
  simp only [get_dataframe_columns_inner, foldl_blockItemsStep, List.nil_append, hblock]
  cases hax : g.children.find? (fun c => c.name == "axis0".toList) with
  | none => simp
  | some c =>
    obtain ⟨e, he⟩ := hg c (List.mem_of_find?_eq_some hax)
    cases hd : c.isDataset <;> simp [he, hd]

/-- C9 witness: a failing open, a missing path, and a group whose sole
child read fails, each inferring no columns. -/
theorem C9_inference_error_degrades_witness :
    get_dataframe_columns (.error "file is corrupt".toList) = [] ∧
    get_dataframe_columns (.ok none) = [] ∧
    get_dataframe_columns
      (.ok (some ⟨[⟨"axis0".toList, true, .error "read failed".toList⟩]⟩)) = [] :=
  ⟨C9_inference_error_degrades.1 _, C9_inference_error_degrades.2.1,
   C9_inference_error_degrades.2.2 _ (by
     intro c hc
     rw [List.mem_singleton] at hc
     exact ⟨"read failed".toList, by rw [hc]⟩)⟩

theorem parseParts_eq_none_iff (l : List Str) :
    parseParts l = none ↔ ∃ p ∈ l, parseToken p = none := by
  induction l with
  | nil => simp [parseParts]
  | cons x xs ih =>
    simp only [parseParts]
    cases hx : parseToken x with
    | none => simp [hx]
    | some idxs =>
      cases hxs : parseParts xs with
      | none =>
        simp only [hxs]
        constructor
        · intro _
          obtain ⟨p, hp, hpn⟩ := ih.mp hxs
          exact ⟨p, List.mem_cons_of_mem _ hp, hpn⟩
        · intro _; trivial
      | some rest =>
        simp only [hxs]
        constructor
        · intro h; exact absurd h (by simp)
        · rintro ⟨p, hp, hpn⟩
          rcases List.mem_cons.mp hp with rfl | hp'
          · exact absurd hx (by simp [hpn])
          · exact absurd (ih.mpr ⟨p, hp', hpn⟩) (by simp [hxs])

/-! ### C7 -/

/-- C7: for every non-blank selection string, (a) if any comma-separated
token is malformed (in particular a range whose start exceeds its end),
parsing returns the error value `[]` with an input error displayed — no
row list is produced — and `_export_csv` stops before the save-file
dialog, so zero bytes are written to any output file; (b) if all tokens
parse, the produced index list is the sorted deduplication of the
collected indices, hence sorted and duplicate-free. -/
theorem C7_row_selection (s : Str)
    (hs : (s.isEmpty || s == "Leave blank for all rows".toList) = false) :
    ((∃ p ∈ splitOnChar ',' s, parseToken p = none) →
      parse_row_selection s = ⟨some [], true⟩ ∧ export_csv_proceeds s = false) ∧
    (∀ l, parseParts (splitOnChar ',' s) = some l →
      parse_row_selection s = ⟨some (sortedDedup l), false⟩ ∧
      (sortedDedup l).Sorted (· ≤ ·) ∧ (sortedDedup l).Nodup) := by
  have hs1 : ¬ s = [] := by
    intro h; subst h; simp at hs
  have hs2 : ¬ s = "Leave blank for all rows".toList := by
    intro h; subst h; simp at hs
  simp only [String.toList] at hs2
  constructor
  · intro hex
    have hnone : parseParts (splitOnChar ',' s) = none := (parseParts_eq_none_iff _).mpr hex
    have hp : parse_row_selection s = ⟨some [], true⟩ := by
      simp [parse_row_selection, hnone, hs1, hs2]
    refine ⟨hp, ?_⟩
    simp [export_csv_proceeds, hp]
  · intro l hl
    have hp : parse_row_selection s = ⟨some (sortedDedup l), false⟩ := by
      simp [parse_row_selection, hl, hs1, hs2]
    refine ⟨hp, List.sorted_insertionSort _ _, ?_⟩
    exact ((List.perm_insertionSort _ _).nodup_iff).mpr (List.nodup_dedup l)

/-- C7 witness: the string `"5,2-1"` contains the malformed range token
`"2-1"` (start exceeds end) and is rejected with no export, while the
well-formed string `"3,1,3"` parses to the sorted, deduplicated `[1, 3]`. -/
theorem C7_row_selection_witness :
    parseToken "2-1".toList = none ∧
    parse_row_selection "5,2-1".toList = ⟨some [], true⟩ ∧
    export_csv_proceeds "5,2-1".toList = false ∧
    parse_row_selection "3,1,3".toList = ⟨some [1, 3], false⟩ := by
  have hbad := (C7_row_selection "5,2-1".toList (by decide)).1
    ⟨"2-1".toList, by decide, by decide⟩
  have hgood := (C7_row_selection "3,1,3".toList (by decide)).2 [3, 1, 3] (by decide)
  exact ⟨by decide, hbad.1, hbad.2, by rw [hgood.1]; decide⟩

theorem natToDigits_ne_nil (n : Nat) : natToDigits n ≠ [] := by
  rw [natToDigits]
  split <;> simp

theorem natToDigits_all_digits (n : Nat) : (natToDigits n).all Char.isDigit = true := by
  induction n using Nat.strong_induction_on with
  | _ n ih =>
    rw [natToDigits]
    split
    · rename_i h
      interval_cases n <;> decide
    · rename_i h
      have h10 : n % 10 < 10 := Nat.mod_lt _ (by omega)
      have hdig : (Nat.digitChar (n % 10)).isDigit = true := by
        interval_cases hm : (n % 10) <;> decide
      simp only [List.all_append, ih (n / 10) (Nat.div_lt_self (by omega) (by omega)),
        List.all_cons, List.all_nil, hdig, Bool.and_self]

theorem digitChar_sub_48 (d : Nat) (hd : d < 10) : (Nat.digitChar d).toNat - 48 = d := by
  interval_cases d <;> decide

theorem foldl_digits_natToDigits (n : Nat) :
    ∀ a : Nat, (natToDigits n).foldl (fun a c => 10 * a + (c.toNat - 48)) a
      = a * 10 ^ (natToDigits n).length + n := by
  induction n using Nat.strong_induction_on with
  | _ n ih =>
    intro a
    rw [natToDigits]
    split
    · rename_i h
      simp [digitChar_sub_48 n h]
      ring
    · rename_i h
      have h10 : n % 10 < 10 := Nat.mod_lt _ (by omega)
      rw [List.foldl_append, ih (n / 10) (Nat.div_lt_self (by omega) (by omega)) a]
      simp only [List.foldl_cons, List.foldl_nil, List.length_append, List.length_cons,
        List.length_nil, digitChar_sub_48 (n % 10) h10]
      rw [pow_succ]
      have := Nat.div_add_mod n 10
      ring_nf
      omega

theorem digitsToNat?_natToDigits (n : Nat) : digitsToNat? (natToDigits n) = some n := by
  rw [digitsToNat?, if_pos ⟨natToDigits_ne_nil n, natToDigits_all_digits n⟩]
  have h := foldl_digits_natToDigits n 0
  simp only [Nat.zero_mul, Nat.zero_add] at h
  rw [h]

theorem isDigit_not_whitespace (c : Char) (h : c.isDigit = true) : c.isWhitespace = false := by
  by_contra hw
  rw [Bool.not_eq_false] at hw
  have hcases : ((c = ' ' ∨ c = '\t') ∨ c = '\r') ∨ c = '\n' := by
    simpa [Char.isWhitespace] using hw
  rcases hcases with ((rfl | rfl) | rfl) | rfl <;> exact absurd h (by decide)

theorem digits_not_whitespace (s : Str) (h : s.all Char.isDigit = true) :
    s.all (fun c => !c.isWhitespace) = true := by
  rw [List.all_eq_true] at h ⊢
  intro c hc
  simp [isDigit_not_whitespace c (h c hc)]

theorem dropWhile_eq_self_of_all (p : Char → Bool) (s : Str)
    (h : s.all (fun c => !p c) = true) : s.dropWhile p = s := by
  cases s with
  | nil => rfl
  | cons c cs =>
    rw [List.all_cons] at h
    rw [List.dropWhile_cons, if_neg]
    simp only [Bool.and_eq_true, Bool.not_eq_true'] at h
    simp [h.1]

theorem trimC_eq_self (s : Str) (h : s.all (fun c => !c.isWhitespace) = true) :
    trimC s = s := by
  rw [trimC, dropWhile_eq_self_of_all _ _ h, dropWhile_eq_self_of_all, List.reverse_reverse]
  rwa [List.all_reverse]

theorem head_natToDigits_isDigit (n : Nat) (c : Char)
    (hc : (natToDigits n).head? = some c) : c.isDigit = true := by
  have hmem : c ∈ natToDigits n := by
    cases hd : natToDigits n with
    | nil => simp [hd] at hc
    | cons a as =>
      rw [hd] at hc
      simp only [List.head?_cons, Option.some.injEq] at hc
      simp [hd, hc]
  have := natToDigits_all_digits n
  rw [List.all_eq_true] at this
  exact this c hmem

theorem pyInt?_intToStr (x : Int) : pyInt? (intToStr x) = some x := by
  by_cases hx : x < 0
  · have hall : ('-' :: natToDigits x.natAbs).all (fun c => !c.isWhitespace) = true := by
      rw [List.all_cons]
      simp [digits_not_whitespace _ (natToDigits_all_digits _)]
    simp only [pyInt?, intToStr, if_pos hx, trimC_eq_self _ hall, List.head?_cons,
      List.drop_one, List.tail_cons, digitsToNat?_natToDigits]
    rw [if_pos trivial]
    simp only [Option.some.injEq]
    omega
  · have hall : (natToDigits x.toNat).all (fun c => !c.isWhitespace) = true :=
      digits_not_whitespace _ (natToDigits_all_digits _)
    have hneg : ¬ (natToDigits x.toNat).head? = some '-' := by
      intro hcon
      exact absurd (head_natToDigits_isDigit _ _ hcon) (by decide)
    have hplus : ¬ (natToDigits x.toNat).head? = some '+' := by
      intro hcon
      exact absurd (head_natToDigits_isDigit _ _ hcon) (by decide)
    simp only [pyInt?, intToStr, if_neg hx, trimC_eq_self _ hall]
    rw [if_neg hneg, if_neg hplus, digitsToNat?_natToDigits]
    simp only [Option.some.injEq]
    omega

/-! ### C8 -/

/-- C8: for every integer column and target text, the filter first
attempts numeric parsing (by definition of `value_match_mask`); when the
parse fails it compares string representations and — since every value's
string representation would itself parse — produces zero matches, with
no exception (the embedding is a total function). -/
theorem C8_numeric_fallback (col : List Int) (target : Str) (h : pyInt? target = none) :
    value_match_mask col target = col.map (fun x => intToStr x == target) ∧
    (value_match_mask col target).count true = 0 := by
  have hmask : value_match_mask col target = col.map (fun x => intToStr x == target) := by
    rw [value_match_mask, h]
  refine ⟨hmask, ?_⟩
  rw [hmask, List.count_eq_zero]
  intro hmem
  rw [List.mem_map] at hmem
  obtain ⟨x, _, hx⟩ := hmem
  rw [beq_iff_eq] at hx
  rw [← hx, pyInt?_intToStr] at h
  exact absurd h (by simp)

/-- C8 witness: the target `"abc"` fails numeric parsing against the
integer column `[1, 2, 3]` and yields zero matches. -/
theorem C8_numeric_fallback_witness :
    pyInt? "abc".toList = none ∧
    (value_match_mask [1, 2, 3] "abc".toList).count true = 0 :=
  ⟨by decide, (C8_numeric_fallback [1, 2, 3] "abc".toList (by decide)).2⟩

/-! ### C10 -/

/-- C10: a chunk whose read or filter raises is skipped — deleting it
from the read sequence leaves the scan result unchanged — and the scan
completes over the remaining chunks with a non-error status: the final
result equals the scan of the successful chunks alone, and the reported
status is `noMatches` or `matchesFound`, never a propagated error. -/
theorem C10_chunk_error_skipped {ρ : Type} (reads : List (Except Str (List ρ)))
    (p : ρ → Bool) (pre post : List (Except Str (List ρ))) (e : Str) :
    scanChunks (pre ++ .error e :: post) p = scanChunks (pre ++ post) p ∧
    update_preview_result reads p = update_preview_result (reads.filter Except.isOk) p := by
  constructor
  · induction pre with
    | nil => simp [scanChunks]
    | cons r rs ih =>
      simp only [List.cons_append, scanChunks, List.append_eq, ih]
  · have hscan : ∀ rs : List (Except Str (List ρ)),
        scanChunks rs p = scanChunks (rs.filter Except.isOk) p := by
      intro rs
      induction rs with
      | nil => rfl
      | cons r rs ih =>
        cases r with
        | ok rows => simp [scanChunks, List.filter_cons, Except.isOk, Except.toBool, ih]
        | error err => simp [scanChunks, List.filter_cons, Except.isOk, Except.toBool, ih]
    simp only [update_preview_result]
    rw [hscan reads]

/-- C10 witness: a failing middle chunk contributes nothing and the scan
succeeds on the remaining chunks. -/
theorem C10_chunk_error_skipped_witness :
    scanChunks [.ok [1, 2], .error "read failed".toList, .ok [2, 3]] (fun x : Nat => x == 2)
      = scanChunks [.ok [1, 2], .ok [2, 3]] (fun x : Nat => x == 2) ∧
    update_preview_result [.ok [1, 2], .error "read failed".toList, .ok [2, 3]]
        (fun x : Nat => x == 2)
      = ([2, 2], .matchesFound) := by
  constructor
  · exact (C10_chunk_error_skipped [] (fun x : Nat => x == 2)
      [.ok [1, 2]] [.ok [2, 3]] "read failed".toList).1
  · rw [(C10_chunk_error_skipped [.ok [1, 2], .error "read failed".toList, .ok [2, 3]]
      (fun x : Nat => x == 2) [] [] []).2]
    decide

theorem writeChunksLoop_cancel {β : Type} (chunks : List (List β)) (w k : Nat)
    (hwk : w ≤ k) (hk : k - w < chunks.length) :
    writeChunksLoop chunks w (some k) = (chunks.take (k - w), true) := by
  induction chunks generalizing w with
  | nil => simp at hk
  | cons c cs ih =>
    rw [writeChunksLoop]
    by_cases hw : k ≤ w
    · have : k - w = 0 := by omega
      simp [cancelFlag, hw, this]
    · have hlt : w < k := by omega
      have h1 : w + 1 ≤ k := by omega
      have h2 : k - (w + 1) < cs.length := by
        simp only [List.length_cons] at hk
        omega
      have hflag : cancelFlag (some k) w = false := by
        simp [cancelFlag]
        omega
      rw [hflag]
      simp only [Bool.false_eq_true, if_false, ih (w + 1) h1 h2]
      have htake : k - w = (k - (w + 1)) + 1 := by omega
      rw [htake, List.take_succ_cons]

/-! ### C2 -/

/-- C2: if cancellation is signaled after chunk `k` of `n` completes
(`0 < k < n`), the flag — polled between chunks only, at the top of each
iteration — is observed before chunk `k+1`, so the chunks written are
exactly the first `k`: no chunk of index greater than `k` is written,
the job ends `.cancelled` (distinct from `.failed` and `.complete`), and
the partially written output (header plus those `k` chunks, a non-empty
prefix) is left in place — nothing in the code deletes it. -/
theorem C2_cancellation {β : Type} (data : List β) (chunkSize k : Nat)
    (hk0 : 0 < k) (hkn : k < (chunkBy chunkSize data).length) :
    export_large_csv data chunkSize (some k)
        = ((chunkBy chunkSize data).take k, .cancelled) ∧
    (export_large_csv data chunkSize (some k)).2 ≠ .failed ∧
    (export_large_csv data chunkSize (some k)).2 ≠ .complete ∧
    (export_large_csv data chunkSize (some k)).1 ≠ [] := by
  have h := writeChunksLoop_cancel (chunkBy chunkSize data) 0 k (Nat.zero_le k)
    (by simpa using hkn)
  simp only [Nat.sub_zero] at h
  have hmain : export_large_csv data chunkSize (some k)
      = ((chunkBy chunkSize data).take k, .cancelled) := by
    simp [export_large_csv, h]
  refine ⟨hmain, by simp [hmain], by simp [hmain], ?_⟩
  rw [hmain]
  show (chunkBy chunkSize data).take k ≠ []
  have hlen : ((chunkBy chunkSize data).take k).length = k := by
    rw [List.length_take]
    omega
  intro hnil
  rw [hnil] at hlen
  simp at hlen
  omega

/-- C2 witness: five rows in chunks of two (three chunks); cancellation
after the first chunk writes exactly that chunk and reports cancelled. -/
theorem C2_cancellation_witness :
    export_large_csv [1, 2, 3, 4, 5] 2 (some 1) = ([[1, 2]], .cancelled) ∧
    0 < 1 ∧ 1 < (chunkBy 2 [1, 2, 3, 4, 5]).length := by
  refine ⟨?_, by decide, by decide⟩
  have h := (C2_cancellation [1, 2, 3, 4, 5] 2 1 (by decide) (by decide)).1
  rw [h]
  decide

theorem chunkPcts_bounds (n i : Nat) (hin : i ≤ n) (q : ℚ) (hq : q ∈ chunkPcts n i) :
    25 ≤ q ∧ q ≤ 95 := by
  rw [chunkPcts, List.mem_map] at hq
  obtain ⟨j, hj, rfl⟩ := hq
  rw [List.mem_range] at hj
  have hn : 0 < n := by omega
  have h1 : (0 : ℚ) ≤ (j : ℚ) / (n : ℚ) := by positivity
  have h2 : ((j : ℚ) / (n : ℚ)) ≤ 1 := by
    rw [div_le_one (by positivity)]
    exact_mod_cast (by omega : j ≤ n)
  constructor <;> nlinarith

theorem chain'_chunkPcts (n i : Nat) : (chunkPcts n i).Chain' (· ≤ ·) := by
  rw [chunkPcts, List.chain'_map]
  cases i with
  | zero => simp
  | succ m =>
    rw [List.chain'_range_succ]
    intro j _
    have : ((j : ℚ) / (n : ℚ)) ≤ (((j + 1 : ℕ)) : ℚ) / (n : ℚ) := by
      rcases Nat.eq_zero_or_pos n with hn | hn
      · simp [hn]
      · have hc : (0 : ℚ) < (n : ℚ) := by exact_mod_cast hn
        rw [div_le_div_iff_of_pos_right hc]
        exact_mod_cast Nat.le_succ j
    nlinarith

theorem export_finish_bounds (n : Nat) (ok : Bool) (q : ℚ)
    (hq : q ∈ (export_finish n ok).1) : 0 ≤ q ∧ q ≤ 100 := by
  simp only [export_finish, List.append_assoc, List.mem_append] at hq
  rcases hq with hq | hq | hq
  · fin_cases hq <;> norm_num
  · have := chunkPcts_bounds n n le_rfl q hq
    constructor <;> linarith [this.1, this.2]
  · cases ok <;> simp at hq <;> rcases hq with rfl | rfl <;> norm_num

theorem export_finish_100 (n : Nat) (ok : Bool) :
    ((100 : ℚ) ∈ (export_finish n ok).1 ↔ ok = true) := by
  simp only [export_finish, List.append_assoc, List.mem_append]
  constructor
  · rintro (hq | hq | hq)
    · simp at hq
    · have := (chunkPcts_bounds n n le_rfl 100 hq).2
      norm_num at this
    · cases ok
      · simp at hq
      · rfl
  · rintro rfl
    right; right
    simp

theorem export_finish_chain (n : Nat) : (export_finish n true).1.Chain' (· ≤ ·) := by
  simp only [export_finish, if_true, List.append_assoc]
  apply List.Chain'.append
  · simp only [List.chain'_cons, List.chain'_singleton, and_true]
    norm_num
  · apply List.Chain'.append
    · exact chain'_chunkPcts n n
    · simp only [List.chain'_cons, List.chain'_singleton, and_true]
      norm_num
    · intro x hx y hy
      have hx95 := (chunkPcts_bounds n n le_rfl x (List.mem_of_mem_getLast? hx)).2
      simp only [List.head?_cons, Option.mem_def, Option.some.injEq] at hy
      linarith [hx95, hy ▸ (by norm_num : (95 : ℚ) ≤ 100)]
  · intro x hx y hy
    rw [show ([5, 10, 15, 20, 25] : List ℚ) = [5, 10, 15, 20] ++ [25] from rfl,
      List.getLast?_concat] at hx
    simp only [Option.mem_def, Option.some.injEq] at hx
    subst hx
    cases hc : chunkPcts n n with
    | nil =>
      rw [hc] at hy
      simp only [List.nil_append, List.head?_cons, Option.mem_def, Option.some.injEq] at hy
      subst hy
      norm_num
    | cons a as =>
      rw [hc] at hy
      simp only [List.cons_append, List.head?_cons, Option.mem_def, Option.some.injEq] at hy
      subst hy
      have : a ∈ chunkPcts n n := by
        rw [hc]; exact List.mem_cons_self a as
      exact (chunkPcts_bounds n n le_rfl a this).1

theorem export_finish_last (n : Nat) : (export_finish n false).1.getLast? = some 0 := by
  simp only [export_finish, Bool.false_eq_true, if_false]
  rw [show ([95, 0] : List ℚ) = [95] ++ [0] from rfl]
  rw [← List.append_assoc, List.getLast?_concat]

/-! ### C3 -/

/-- C3 counterexample.  A run that fails column validation emits the
percentages 5, 10, 15, 20 and then 0 from the error handler
(`progress_callback(0, error_msg)`, dataframe_exporter.py line 100):
the sequence drops from 20 to 0, so progress is not monotonically
non-decreasing on this error path. -/
theorem C3_progress_counterexample :
    (export_to_csv_trace 1 false none true).1 = [5, 10, 15, 20, 0] ∧
    (export_to_csv_trace 1 false none true).2 = .failed ∧
    ¬ (export_to_csv_trace 1 false none true).1.Chain' (· ≤ ·) := by
  refine ⟨rfl, rfl, ?_⟩
  have h : (export_to_csv_trace 1 false none true).1 = [5, 10, 15, 20, 0] := rfl
  rw [h]
  simp only [List.chain'_cons, List.chain'_singleton, and_true]
  norm_num

/-- C3 (amended): every reported percentage lies in [0, 100]; 100 is
reported exactly when the run completes successfully; the sequence is
monotonically non-decreasing on every successful run; but on failure and
cancellation paths the final report is 0 — after values at least 5 —
so the sequence is not non-decreasing there. -/
theorem C3_progress (n : Nat) (cv : Bool) (ca : Option Nat) (ok : Bool) :
    (∀ q ∈ (export_to_csv_trace n cv ca ok).1, 0 ≤ q ∧ q ≤ 100) ∧
    ((100 : ℚ) ∈ (export_to_csv_trace n cv ca ok).1 ↔
      (export_to_csv_trace n cv ca ok).2 = .complete) ∧
    ((export_to_csv_trace n cv ca ok).2 = .complete →
      (export_to_csv_trace n cv ca ok).1.Chain' (· ≤ ·)) ∧
    ((export_to_csv_trace n cv ca ok).2 ≠ .complete →
      (export_to_csv_trace n cv ca ok).1.getLast? = some 0) := by
  cases cv with
  | false =>
    refine ⟨?_, ?_, ?_, ?_⟩
    · intro q hq
      have h : (export_to_csv_trace n false ca ok).1 = [5, 10, 15, 20, 0] := rfl
      rw [h] at hq
      fin_cases hq <;> norm_num
    · have h : (export_to_csv_trace n false ca ok).1 = [5, 10, 15, 20, 0] := rfl
      have h2 : (export_to_csv_trace n false ca ok).2 = .failed := rfl
      rw [h, h2]
      simp only [List.mem_cons, List.not_mem_nil]
      constructor
      · rintro (h' | h' | h' | h' | h') <;> norm_num at h'
      · intro h'; exact absurd h' (by simp)
    · intro h'
      have h2 : (export_to_csv_trace n false ca ok).2 = .failed := rfl
      rw [h2] at h'
      exact absurd h' (by simp)
    · intro _
      have h : (export_to_csv_trace n false ca ok).1 = [5, 10, 15, 20, 0] := rfl
      rw [h, show ([5, 10, 15, 20, 0] : List ℚ) = [5, 10, 15, 20] ++ [0] from rfl,
        List.getLast?_concat]
  | true =>
    have hfin : ∀ heq : export_to_csv_trace n true ca ok = export_finish n ok,
        (∀ q ∈ (export_to_csv_trace n true ca ok).1, 0 ≤ q ∧ q ≤ 100) ∧
        ((100 : ℚ) ∈ (export_to_csv_trace n true ca ok).1 ↔
          (export_to_csv_trace n true ca ok).2 = .complete) ∧
        ((export_to_csv_trace n true ca ok).2 = .complete →
          (export_to_csv_trace n true ca ok).1.Chain' (· ≤ ·)) ∧
        ((export_to_csv_trace n true ca ok).2 ≠ .complete →
          (export_to_csv_trace n true ca ok).1.getLast? = some 0) := by
      intro hfe
      rw [hfe]
      refine ⟨export_finish_bounds n ok, ?_, ?_, ?_⟩
      · rw [export_finish_100]
        cases ok <;> simp [export_finish]
      · intro hc
        have hok : ok = true := by
          cases ok
          · exact absurd hc (by simp [export_finish])
          · rfl
        rw [hok]
        exact export_finish_chain n
      · intro hc
        have hok : ok = false := by
          cases ok
          · rfl
          · exact absurd (by simp [export_finish] : (export_finish n true).2 = .complete) hc
        rw [hok]
        exact export_finish_last n
    cases ca with
    | none => exact hfin rfl
    | some i =>
      by_cases hi : i < n
      · have h1 : (export_to_csv_trace n true (some i) ok).1
            = [5, 10, 15, 20, 25] ++ chunkPcts n i ++ [0] := by
          simp [export_to_csv_trace, hi]
        have h2 : (export_to_csv_trace n true (some i) ok).2 = .cancelled := by
          simp [export_to_csv_trace, hi]
        refine ⟨?_, ?_, ?_, ?_⟩
        · intro q hq
          rw [h1] at hq
          simp only [List.append_assoc, List.mem_append] at hq
          rcases hq with hq | hq | hq
          · fin_cases hq <;> norm_num
          · have := chunkPcts_bounds n i (by omega) q hq
            constructor <;> linarith [this.1, this.2]
          · simp only [List.mem_cons, List.not_mem_nil, or_false] at hq
            rw [hq]
            norm_num
        · rw [h1, h2]
          simp only [List.append_assoc, List.mem_append]
          constructor
          · rintro (hq | hq | hq)
            · simp at hq
            · have := (chunkPcts_bounds n i (by omega) 100 hq).2
              norm_num at this
            · simp at hq
          · intro h'; exact absurd h' (by simp)
        · intro h'
          rw [h2] at h'
          exact absurd h' (by simp)
        · intro _
          rw [h1, List.getLast?_concat]
      · have hfe : export_to_csv_trace n true (some i) ok = export_finish n ok := by
          simp [export_to_csv_trace, hi]
        exact hfin hfe

/-- C3 witness: the amended theorem evaluated on a successful two-chunk
run (trace `[5,10,15,20,25,25,60,95,100]`, status complete) and on a
failing run. -/
theorem C3_progress_witness :
    ((export_to_csv_trace 2 true none true).2 = .complete →
      (export_to_csv_trace 2 true none true).1.Chain' (· ≤ ·)) ∧
    ((export_to_csv_trace 1 false none true).2 ≠ .complete →
      (export_to_csv_trace 1 false none true).1.getLast? = some 0) :=
  ⟨(C3_progress 2 true none true).2.2.1, (C3_progress 1 false none true).2.2.2⟩

theorem chunkBy_nil {β : Type} (k : Nat) : chunkBy k ([] : List β) = [] := by
  rw [chunkBy]
  have h : (([] : List β).length + k - 1) / k = 0 := by
    rcases Nat.eq_zero_or_pos k with rfl | hk
    · simp
    · simp only [List.length_nil, Nat.zero_add]
      exact Nat.div_eq_of_lt (by omega)
  rw [h]
  rfl

theorem chunkBy_cons {β : Type} (k : Nat) (hk : 0 < k) (l : List β) (hl : l ≠ []) :
    chunkBy k l = l.take k :: chunkBy k (l.drop k) := by
  have hn : 0 < l.length := List.length_pos.mpr hl
  have hcount : (l.length + k - 1) / k = ((l.drop k).length + k - 1) / k + 1 := by
    rw [List.length_drop]
    rcases le_or_lt l.length k with h | h
    · have h1 : l.length - k = 0 := by omega
      rw [h1, Nat.zero_add]
      have h2 : (k - 1) / k = 0 := Nat.div_eq_of_lt (by omega)
      have h3 : l.length + k - 1 = (l.length - 1) + k := by omega
      rw [h2, h3, Nat.add_div_right _ hk]
      have h4 : (l.length - 1) / k = 0 := Nat.div_eq_of_lt (by omega)
      omega
    · have h2 : l.length + k - 1 = (l.length - 1) + k := by omega
      have h3 : l.length - k + k - 1 = (l.length - k - 1) + k := by omega
      have h4 : l.length - 1 = (l.length - k - 1) + k := by omega
      rw [h2, h3, Nat.add_div_right _ hk, Nat.add_div_right _ hk, h4,
        Nat.add_div_right _ hk]
  simp only [chunkBy]
  rw [hcount, List.range_succ_eq_map, List.map_cons]
  simp only [Nat.zero_mul, List.drop_zero, List.map_map]
  congr 1
  apply List.map_congr_left
  intro j _
  simp only [Function.comp_apply]
  rw [List.drop_drop, Nat.succ_mul, Nat.add_comm]

theorem chunkBy_flatten {β : Type} (k : Nat) (hk : 0 < k) (l : List β) :
    (chunkBy k l).flatten = l := by
  have H : ∀ n (l : List β), l.length ≤ n → (chunkBy k l).flatten = l := by
    intro n
    induction n with
    | zero =>
      intro l hl
      rcases l with _ | ⟨a, as⟩
      · rw [chunkBy_nil]; rfl
      · simp at hl
    | succ n ih =>
      intro l hl
      rcases l with _ | ⟨a, as⟩
      · rw [chunkBy_nil]; rfl
      · rw [chunkBy_cons k hk (a :: as) (by simp), List.flatten_cons,
          ih ((a :: as).drop k) (by
            rw [List.length_drop]
            simp only [List.length_cons]
            simp only [List.length_cons] at hl
            omega),
          List.take_append_drop]
  exact H l.length l le_rfl

theorem mul_lt_of_lt_chunkCount (n k j : Nat) (hk : 0 < k) (hj : j < (n + k - 1) / k) :
    j * k < n := by
  have h1 : (j + 1) * k ≤ ((n + k - 1) / k) * k := Nat.mul_le_mul_right k (by omega)
  have h2 : ((n + k - 1) / k) * k ≤ n + k - 1 := Nat.div_mul_le_self _ _
  have h4 : 0 < n := by
    rcases Nat.eq_zero_or_pos n with rfl | h
    · exfalso
      rw [Nat.zero_add] at hj
      have := Nat.div_eq_of_lt (show k - 1 < k by omega)
      omega
    · exact h
  have hexp : (j + 1) * k = j * k + k := by ring
  rw [hexp] at h1
  omega

theorem chunkBy_mem_sublist {β : Type} {k : Nat} {l c : List β} (hc : c ∈ chunkBy k l) :
    c.Sublist l := by
  rw [chunkBy, List.mem_map] at hc
  obtain ⟨j, _, rfl⟩ := hc
  exact (List.take_sublist _ _).trans (List.drop_sublist _ _)

theorem chunkBy_mem_ne_nil {β : Type} {k : Nat} (hk : 0 < k) {l c : List β}
    (hc : c ∈ chunkBy k l) : c ≠ [] := by
  rw [chunkBy, List.mem_map] at hc
  obtain ⟨j, hj, rfl⟩ := hc
  rw [List.mem_range] at hj
  have hjk : j * k < l.length := mul_lt_of_lt_chunkCount l.length k j hk hj
  intro hnil
  have hlen := congrArg List.length hnil
  rw [List.length_take, List.length_drop] at hlen
  simp only [List.length_nil] at hlen
  omega

theorem foldl_min_le_init (l : List Nat) (a : Nat) : l.foldl Nat.min a ≤ a := by
  induction l generalizing a with
  | nil => simp
  | cons x xs ih =>
    simp only [List.foldl_cons]
    exact le_trans (ih _) (Nat.min_le_left a x)

theorem foldl_min_le_mem (l : List Nat) (x : Nat) (hx : x ∈ l) :
    ∀ a, l.foldl Nat.min a ≤ x := by
  induction l with
  | nil => cases hx
  | cons y ys ih =>
    intro a
    simp only [List.foldl_cons]
    rcases List.mem_cons.mp hx with rfl | hx'
    · exact le_trans (foldl_min_le_init ys _) (Nat.min_le_right a x)
    · exact ih hx' _

theorem nat_min_choice (a y : Nat) : Nat.min a y = a ∨ Nat.min a y = y := by
  rcases Nat.le_total a y with h | h
  · left; exact Nat.min_eq_left h
  · right; exact Nat.min_eq_right h

theorem nat_max_choice (a y : Nat) : Nat.max a y = a ∨ Nat.max a y = y := by
  rcases Nat.le_total a y with h | h
  · right; exact Nat.max_eq_right h
  · left; exact Nat.max_eq_left h

theorem foldl_min_mem (l : List Nat) : ∀ a, l.foldl Nat.min a = a ∨ l.foldl Nat.min a ∈ l := by
  induction l with
  | nil => intro a; left; rfl
  | cons y ys ih =>
    intro a
    simp only [List.foldl_cons]
    rcases ih (Nat.min a y) with h | h
    · rcases nat_min_choice a y with hm | hm
      · left; rw [h, hm]
      · right; rw [h, hm]; exact List.mem_cons_self y ys
    · right; exact List.mem_cons_of_mem _ h

theorem le_foldl_max_init (l : List Nat) (a : Nat) : a ≤ l.foldl Nat.max a := by
  induction l generalizing a with
  | nil => simp
  | cons x xs ih =>
    simp only [List.foldl_cons]
    exact le_trans (Nat.le_max_left a x) (ih _)

theorem le_foldl_max_mem (l : List Nat) (x : Nat) (hx : x ∈ l) :
    ∀ a, x ≤ l.foldl Nat.max a := by
  induction l with
  | nil => cases hx
  | cons y ys ih =>
    intro a
    simp only [List.foldl_cons]
    rcases List.mem_cons.mp hx with rfl | hx'
    · exact le_trans (Nat.le_max_right a x) (le_foldl_max_init ys _)
    · exact ih hx' _

theorem foldl_max_mem (l : List Nat) : ∀ a, l.foldl Nat.max a = a ∨ l.foldl Nat.max a ∈ l := by
  induction l with
  | nil => intro a; left; rfl
  | cons y ys ih =>
    intro a
    simp only [List.foldl_cons]
    rcases ih (Nat.max a y) with h | h
    · rcases nat_max_choice a y with hm | hm
      · left; rw [h, hm]
      · right; rw [h, hm]; exact List.mem_cons_self y ys
    · right; exact List.mem_cons_of_mem _ h

theorem chunkStart_le {c : List Nat} {x : Nat} (hx : x ∈ c) : chunkStart c ≤ x := by
  rcases c with _ | ⟨c0, cs⟩
  · cases hx
  · rw [chunkStart]
    simp only [List.headD_cons, List.foldl_cons, Nat.min_self]
    rcases List.mem_cons.mp hx with rfl | hx'
    · exact foldl_min_le_init cs x
    · exact foldl_min_le_mem cs x hx' c0

theorem le_chunkStop {c : List Nat} {x : Nat} (hx : x ∈ c) : x ≤ chunkStop c := by
  rcases c with _ | ⟨c0, cs⟩
  · cases hx
  · rw [chunkStop]
    simp only [List.headD_cons, List.foldl_cons, Nat.max_self]
    rcases List.mem_cons.mp hx with rfl | hx'
    · exact le_foldl_max_init cs x
    · exact le_foldl_max_mem cs x hx' c0

theorem chunkStart_mem {c : List Nat} (hc : c ≠ []) : chunkStart c ∈ c := by
  rcases c with _ | ⟨c0, cs⟩
  · exact absurd rfl hc
  · rw [chunkStart]
    simp only [List.headD_cons, List.foldl_cons, Nat.min_self]
    rcases foldl_min_mem cs c0 with h | h
    · rw [h]; exact List.mem_cons_self c0 cs
    · exact List.mem_cons_of_mem _ h

theorem chunkStop_mem {c : List Nat} (hc : c ≠ []) : chunkStop c ∈ c := by
  rcases c with _ | ⟨c0, cs⟩
  · exact absurd rfl hc
  · rw [chunkStop]
    simp only [List.headD_cons, List.foldl_cons, Nat.max_self]
    rcases foldl_max_mem cs c0 with h | h
    · rw [h]; exact List.mem_cons_self c0 cs
    · exact List.mem_cons_of_mem _ h

theorem sliceRows_getElem? {ρ : Type} (data : List ρ) (s e j : Nat) :
    (sliceRows data s e)[j]? = if s + j < e then data[s + j]? else none := by
  rw [sliceRows, List.getElem?_drop, List.getElem?_take]

theorem exportExplicitChunk_eq {ρ : Type} (data : List ρ) (c : List Nat) :
    exportExplicitChunk data c = c.filterMap (fun i => data[i]?) := by
  simp only [exportExplicitChunk]
  apply List.filterMap_congr
  intro i hi
  rw [sliceRows_getElem?]
  have h1 : chunkStart c ≤ i := chunkStart_le hi
  have h2 : i ≤ chunkStop c := le_chunkStop hi
  rw [if_pos (by omega), show chunkStart c + (i - chunkStart c) = i by omega]

theorem flatMap_filterMap_flatten {α β : Type} (cs : List (List α)) (f : α → Option β) :
    cs.flatMap (fun c => c.filterMap f) = cs.flatten.filterMap f := by
  induction cs with
  | nil => rfl
  | cons c cs ih => simp [List.flatMap_cons, List.filterMap_append, ih]

theorem export_to_csv_rows_eq {ρ : Type} (data : List ρ) (rows : List Nat) (k : Nat)
    (hk : 0 < k) :
    export_to_csv_rows data rows k
      = (List.insertionSort (· ≤ ·) rows).filterMap (fun i => data[i]?) := by
  rw [export_to_csv_rows,
    show exportExplicitChunk data = (fun c => c.filterMap (fun i => data[i]?)) from
      funext (exportExplicitChunk_eq data),
    flatMap_filterMap_flatten, chunkBy_flatten k hk]

theorem sorted_rows_eq_filter_range (rows : List Nat) (n : Nat) (hnd : rows.Nodup)
    (hvalid : ∀ i ∈ rows, i < n) :
    List.insertionSort (· ≤ ·) rows
      = (List.range n).filter (fun i => decide (i ∈ rows)) := by
  haveI : IsAntisymm Nat (· < ·) := ⟨fun a b h1 h2 => absurd (h1.trans h2) (lt_irrefl a)⟩
  have hperm : (List.insertionSort (· ≤ ·) rows).Perm
      ((List.range n).filter (fun i => decide (i ∈ rows))) := by
    apply List.perm_of_nodup_nodup_toFinset_eq
    · exact ((List.perm_insertionSort _ rows).nodup_iff).mpr hnd
    · exact (List.nodup_range n).filter _
    · ext x
      simp only [List.mem_toFinset, List.mem_filter, List.mem_range, decide_eq_true_eq]
      constructor
      · intro hx
        have hx' : x ∈ rows := ((List.perm_insertionSort _ rows).mem_iff).mp hx
        exact ⟨hvalid x hx', hx'⟩
      · rintro ⟨_, hx⟩
        exact ((List.perm_insertionSort _ rows).mem_iff).mpr hx
  have hs1 : (List.insertionSort (· ≤ ·) rows).Sorted (· < ·) :=
    (List.sorted_insertionSort _ rows).lt_of_le
      (((List.perm_insertionSort _ rows).nodup_iff).mpr hnd)
  have hs2 : ((List.range n).filter (fun i => decide (i ∈ rows))).Sorted (· < ·) :=
    List.Pairwise.sublist (List.filter_sublist _) (List.pairwise_lt_range n)
  exact List.eq_of_perm_of_sorted hperm hs1 hs2

theorem continuous_chain' (l : List Nat) (h : is_continuous_slice l = true) :
    l.Chain' (fun a b => a + 1 = b) := by
  rw [is_continuous_slice, Bool.and_eq_true, decide_eq_true_eq, List.all_eq_true] at h
  obtain ⟨hlen, hall⟩ := h
  rw [List.chain'_iff_get]
  intro i hi
  have hmem := hall i (List.mem_range.mpr (by omega))
  rw [beq_iff_eq] at hmem
  simp only [List.getD_eq_getElem?_getD] at hmem
  rw [List.getElem?_eq_getElem (show i < l.length by omega),
    List.getElem?_eq_getElem (show i + 1 < l.length by omega)] at hmem
  simp only [Option.getD_some] at hmem
  simpa [List.get_eq_getElem] using hmem

theorem consecutive_eq_range' : ∀ (c : List Nat), c.Chain' (fun a b => a + 1 = b) →
    c = List.range' (c.headD 0) c.length := by
  intro c
  induction c with
  | nil => intro _; rfl
  | cons a cs ih =>
    intro h
    rcases cs with _ | ⟨b, cs'⟩
    · rfl
    · rw [List.chain'_cons] at h
      obtain ⟨hab, h'⟩ := h
      have hrest := ih h'
      simp only [List.headD_cons] at hrest ⊢
      rw [List.length_cons, List.range'_succ, hab]
      exact congrArg (a :: ·) hrest

theorem chunkStart_range' (h n : Nat) (hn : 0 < n) : chunkStart (List.range' h n) = h := by
  have hmem : h ∈ List.range' h n := List.mem_range'_1.mpr ⟨le_rfl, by omega⟩
  have h1 : chunkStart (List.range' h n) ≤ h := chunkStart_le hmem
  have hne : List.range' h n ≠ [] := by
    intro hcon
    have hlen := congrArg List.length hcon
    rw [List.length_range'] at hlen
    simp at hlen
    omega
  have h2 := chunkStart_mem hne
  rw [List.mem_range'_1] at h2
  omega

theorem chunkStop_range' (h n : Nat) (hn : 0 < n) :
    chunkStop (List.range' h n) = h + n - 1 := by
  have hmem : h + n - 1 ∈ List.range' h n := List.mem_range'_1.mpr ⟨by omega, by omega⟩
  have h1 : h + n - 1 ≤ chunkStop (List.range' h n) := le_chunkStop hmem
  have hne : List.range' h n ≠ [] := by
    intro hcon
    have hlen := congrArg List.length hcon
    rw [List.length_range'] at hlen
    simp at hlen
    omega
  have h2 := chunkStop_mem hne
  rw [List.mem_range'_1] at h2
  omega

/-! ### C1 -/

/-- C1: for every explicit row-index list (duplicate-free, as the
row-selection parser produces, with indices inside the dataset) and
positive chunk size: (a) when the sorted list is contiguous ascending,
every chunk of the plan is exactly the consecutive range
`[chunkStart c, chunkStop c]`, so the covering slice read
`(start, stop + 1)` is a pure slice-style read of precisely the chunk's
rows — the in-memory discard step removes nothing; (b) for any list
(contiguous or not), the exported rows and their order equal the naive
read-everything-then-filter-by-index result. -/
theorem C1_export_rows {ρ : Type} (data : List ρ) (rows : List Nat) (k : Nat)
    (hk : 0 < k) (hnd : rows.Nodup) (hvalid : ∀ i ∈ rows, i < data.length) :
    (is_continuous_slice (List.insertionSort (· ≤ ·) rows) = true →
      ∀ c ∈ chunkBy k (List.insertionSort (· ≤ ·) rows),
        c = List.range' (chunkStart c) c.length ∧
        chunkStop c + 1 - chunkStart c = c.length) ∧
    export_to_csv_rows data rows k = naiveFilterRows data rows := by
  constructor
  · intro hcont c hc
    have hchain : c.Chain' (fun a b => a + 1 = b) := by
      rw [chunkBy, List.mem_map] at hc
      obtain ⟨j, _, rfl⟩ := hc
      exact ((continuous_chain' _ hcont).drop _).take _
    have hne : c ≠ [] := chunkBy_mem_ne_nil hk hc
    have hn : 0 < c.length := List.length_pos.mpr hne
    have heq := consecutive_eq_range' c hchain
    have hstart : chunkStart c = c.headD 0 := by
      conv_lhs => rw [heq]
      exact chunkStart_range' _ _ hn
    have hstop : chunkStop c = c.headD 0 + c.length - 1 := by
      conv_lhs => rw [heq]
      exact chunkStop_range' _ _ hn
    constructor
    · rw [hstart]; exact heq
    · omega
  · rw [export_to_csv_rows_eq data rows k hk,
      sorted_rows_eq_filter_range rows data.length hnd hvalid]
    rfl

/-- C1 witness: the non-contiguous list `[4, 0, 2]` over a six-row
dataset in chunks of two exports rows 0, 2, 4 in ascending order, equal
to the naive filter; the contiguous list `[1, 2, 3]` yields chunks that
are exact consecutive ranges. -/
theorem C1_export_rows_witness :
    export_to_csv_rows [10, 20, 30, 40, 50, 60] [4, 0, 2] 2
      = naiveFilterRows [10, 20, 30, 40, 50, 60] [4, 0, 2] ∧
    export_to_csv_rows [10, 20, 30, 40, 50, 60] [4, 0, 2] 2 = [10, 30, 50] ∧
    is_continuous_slice (List.insertionSort (· ≤ ·) [1, 2, 3]) = true ∧
    (∀ c ∈ chunkBy 2 (List.insertionSort (· ≤ ·) [1, 2, 3]),
        c = List.range' (chunkStart c) c.length ∧
        chunkStop c + 1 - chunkStart c = c.length) := by
  refine ⟨(C1_export_rows [10, 20, 30, 40, 50, 60] [4, 0, 2] 2 (by decide) (by decide)
      (by decide)).2,
    by decide, by decide,
    (C1_export_rows [10, 20, 30, 40, 50, 60] [1, 2, 3] 2 (by decide) (by decide)
      (by decide)).1 (by decide)⟩

end H5Cruncher
